import Mathlib

/-!
Verification development for the download-orchestration core of a
YouTube downloader application (`youtube_downloader.py`).

The Python source is shallowly embedded: every Python function that the
properties below speak about is translated into an executable Lean
definition operating on `String`/`List Char`, `Nat`/`Int`, `Option` and
explicit state records.  Python floats are modelled as exact rationals
(`ℚ`); Python string builtins (`lower`, `strip`, `in`, `isdigit`,
`int()`, `float()`) are modelled by the `py*` helpers below, restricted
to ASCII, which is the alphabet the program actually manipulates.
-/

/-! ## Python string primitives -/

/-- Is `p` a (contiguous) prefix of `s`?  Helper for the model of
Python's substring test `p in s`. -/
def isPrefixList : List Char → List Char → Bool
  | [], _ => true
  | _ :: _, [] => false
  | p :: ps, c :: cs => p == c && isPrefixList ps cs

/-- Does `hay` contain `needle` as a contiguous sublist?  Model of
Python's `needle in hay` for strings. -/
def isSubList (needle : List Char) : List Char → Bool
  | [] => needle.isEmpty
  | c :: t => isPrefixList needle (c :: t) || isSubList needle t

/-- Python `needle in hay` on strings. -/
def pyContains (hay needle : String) : Bool :=
  isSubList needle.toList hay.toList

/-- Python `str.lower()` (ASCII). -/
def pyLower (s : String) : String :=
  String.mk (s.toList.map Char.toLower)

/-- Python `str.strip()`: remove leading and trailing whitespace. -/
def pyStrip (s : String) : String :=
  String.mk (((s.toList.dropWhile Char.isWhitespace).reverse.dropWhile
    Char.isWhitespace).reverse)

/-- Python `str.isdigit()` (ASCII digits): true iff the string is
non-empty and all characters are digits. -/
def pyIsDigit (s : String) : Bool :=
  !s.toList.isEmpty && s.toList.all Char.isDigit

/-- Python `s[:-1]`: drop the final character. -/
def dropLastStr (s : String) : String :=
  String.mk s.toList.dropLast

/-- Python `s.endswith(c)` for a single character. -/
def pyEndsWith (s : String) (c : Char) : Bool :=
  s.toList.getLast? == some c

/-- Numeric value of a list of ASCII digits (most significant first). -/
def digitsVal (l : List Char) : Nat :=
  l.foldl (fun a c => a * 10 + (c.toNat - 48)) 0

/-- Model of Python `int(s)`: optional surrounding whitespace, optional
sign, then one or more ASCII digits.  Returns `none` where Python
raises `ValueError`. -/
def pyInt (s : String) : Option Int :=
  match (pyStrip s).toList with
  | '-' :: rest =>
      if !rest.isEmpty && rest.all Char.isDigit then some (-(digitsVal rest : Int)) else none
  | '+' :: rest =>
      if !rest.isEmpty && rest.all Char.isDigit then some (digitsVal rest : Int) else none
  | l =>
      if !l.isEmpty && l.all Char.isDigit then some (digitsVal l : Int) else none

/-- Unsigned part of the model of Python `float(s)`: digits, optionally
followed by a decimal point and further digits (no exponent forms). -/
def parseUnsignedFloat (l : List Char) : Option ℚ :=
  let intPart := l.takeWhile Char.isDigit
  let rest := l.dropWhile Char.isDigit
  match rest with
  | [] => if intPart.isEmpty then none else some (digitsVal intPart : ℚ)
  | '.' :: rest2 =>
      let fracPart := rest2.takeWhile Char.isDigit
      let rest3 := rest2.dropWhile Char.isDigit
      if intPart.isEmpty && fracPart.isEmpty then none
      else if rest3.isEmpty then
        some ((digitsVal intPart : ℚ) + (digitsVal fracPart : ℚ) / (10 ^ fracPart.length : ℚ))
      else none
  | _ => none

/-- Model of Python `float(s)` restricted to finite decimal literals
(optional whitespace, optional sign, digits with an optional fractional
part).  Returns `none` where Python raises `ValueError`; exponent and
infinity/nan forms are outside the model. -/
def pyFloat (s : String) : Option ℚ :=
  match (pyStrip s).toList with
  | '-' :: rest => (parseUnsignedFloat rest).map (fun q => -q)
  | '+' :: rest => parseUnsignedFloat rest
  | l => parseUnsignedFloat l

/-- Python `s.replace(c, '')`: remove every occurrence of the character. -/
def pyRemoveChar (c : Char) (s : String) : String :=
  String.mk (s.toList.filter (fun x => x ≠ c))

/-! ## Alternative lists: splitting a selector expression on `/`

The extraction backend treats a format selector as a `/`-separated list
of alternatives, evaluated left to right.  `splitOnChar` models that
split (the backend is an external collaborator; this is its documented
reading of the string the program hands it). -/

/-- Split a character list at every occurrence of `c`.  Always returns
at least one (possibly empty) segment. -/
def splitOnChar (c : Char) : List Char → List (List Char)
  | [] => [[]]
  | x :: xs =>
      match splitOnChar c xs with
      | [] => [[x]]
      | y :: ys => if x = c then [] :: y :: ys else (x :: y) :: ys

/-- The alternatives of a selector-expression string. -/
def splitAlts (s : String) : List (List Char) :=
  splitOnChar '/' s.toList

theorem splitOnChar_ne_nil (c : Char) (l : List Char) : splitOnChar c l ≠ [] := by
  cases l with
  | nil => simp [splitOnChar]
  | cons x xs =>
      simp only [splitOnChar]
      cases h : splitOnChar c xs with
      | nil => simp
      | cons y ys => by_cases hx : x = c <;> simp [hx]

theorem splitOnChar_of_not_mem (c : Char) (l : List Char) (h : c ∉ l) :
    splitOnChar c l = [l] := by
  induction l with
  | nil => rfl
  | cons x xs ih =>
      simp only [List.mem_cons, not_or] at h
      have hx : ¬ x = c := fun he => h.1 he.symm
      simp [splitOnChar, ih h.2, hx]

theorem two_le_length_splitOnChar (c : Char) (l : List Char) (h : c ∈ l) :
    2 ≤ (splitOnChar c l).length := by
  induction l with
  | nil => simp at h
  | cons x xs ih =>
      simp only [splitOnChar]
      rcases hs : splitOnChar c xs with _ | ⟨y, ys⟩
      · exact absurd hs (splitOnChar_ne_nil c xs)
      · by_cases hx : x = c
        · simp [hx]
        · have hm : c ∈ xs := by
            rcases List.mem_cons.mp h with h1 | h1
            · exact absurd h1.symm hx
            · exact h1
          have := ih hm
          rw [hs] at this
          simp only [hx, if_false]
          simpa using this

theorem splitOnChar_last (c : Char) (l r : List Char) (hr : c ∉ r) :
    (splitOnChar c (l ++ c :: r)).getLast? = some r := by
  induction l with
  | nil =>
      simp only [List.nil_append, splitOnChar, splitOnChar_of_not_mem c r hr, if_pos rfl]
      rfl
  | cons x xs ih =>
      have hne := splitOnChar_ne_nil c (xs ++ c :: r)
      have hlen := two_le_length_splitOnChar c (xs ++ c :: r) (by simp)
      simp only [List.cons_append, splitOnChar]
      rcases hs : splitOnChar c (xs ++ c :: r) with _ | ⟨y, ys⟩
      · exact absurd hs hne
      · rw [hs] at ih hlen
        rcases ys with _ | ⟨z, zs⟩
        · simp at hlen
        · by_cases hx : x = c
          · simpa [hx] using ih
          · simp only [hx, if_false]
            rw [List.getLast?_cons_cons] at ih ⊢
            exact ih

theorem mem_of_mem_splitOnChar (c a : Char) (l seg : List Char)
    (hseg : seg ∈ splitOnChar c l) (ha : a ∈ seg) : a ∈ l := by
  induction l generalizing seg with
  | nil =>
      simp [splitOnChar] at hseg
      subst hseg
      simp at ha
  | cons x xs ih =>
      rcases hs : splitOnChar c xs with _ | ⟨y, ys⟩
      · exact absurd hs (splitOnChar_ne_nil c xs)
      · simp only [splitOnChar, hs] at hseg
        by_cases hx : x = c
        · rw [hx, if_pos rfl] at hseg
          cases List.mem_cons.mp hseg with
          | inl h1 => subst h1; simp at ha
          | inr h1 =>
              exact List.mem_cons_of_mem x (ih seg (by rw [hs]; exact h1) ha)
        · rw [if_neg hx] at hseg
          cases List.mem_cons.mp hseg with
          | inl h1 =>
              subst h1
              cases List.mem_cons.mp ha with
              | inl h2 => exact h2 ▸ List.mem_cons_self x xs
              | inr h2 =>
                  exact List.mem_cons_of_mem x
                    (ih y (by rw [hs]; exact List.mem_cons_self _ _) h2)
          | inr h1 =>
              exact List.mem_cons_of_mem x
                (ih seg (by rw [hs]; exact List.mem_cons_of_mem y h1) ha)

/-! ## FormatSelector (`_get_format_selector`, `_get_no_merge_format_selector`)

Embedded from `youtube_downloader.py` lines 2169-2225.  The quality
tier arrives as the raw string of the quality combo box, so the
functions are total over `String`, exactly like the Python code. -/

/-- Selector expression for a dynamically discovered numeric tier
("1080p", "1440p", ...): the Python f-string
`f'bestvideo[height<={height}]+bestaudio/bestvideo[height<={height}]/bestaudio'`. -/
def height_selector (height : String) : String :=
  "bestvideo[height<=" ++ height ++ "]+bestaudio/bestvideo[height<=" ++ height ++ "]/bestaudio"

/-- `_get_format_selector` (used when the merge tool is available). -/
def get_format_selector (quality : String) : String :=
  if quality = "Audio Only" then "bestaudio"
  else if quality = "Data Saving" then
    "worstvideo[height>=144]+bestaudio/602+139-drc/602+139/602/160+139/160/bestaudio"
  else if quality = "Best Quality" then
    "bestvideo+bestaudio/best[height<=2160]/bestvideo[height<=1440]+bestaudio/bestvideo[height<=1080]+bestaudio/bestvideo+bestaudio/bestaudio"
  else if quality = "720p" then "bestvideo[height<=720]+bestaudio/136+140/136+139/bestaudio"
  else if quality = "480p" then "bestvideo[height<=480]+bestaudio/135+140/135+139/bestaudio"
  else if quality = "360p" then "bestvideo[height<=360]+bestaudio/134+140/134+139/bestaudio"
  else if quality = "240p" then "bestvideo[height<=240]+bestaudio/133+140/133+139/bestaudio"
  else if pyEndsWith quality 'p' && pyIsDigit (dropLastStr quality) then
    height_selector (dropLastStr quality)
  else "bestvideo+bestaudio/bestaudio"

/-- `_get_no_merge_format_selector` (single-stream selectors intended
for when the merge tool is missing). -/
def get_no_merge_format_selector (quality : String) : String :=
  if quality = "Audio Only" then "bestaudio"
  else if quality = "Data Saving" then "worst/bestaudio"
  else if quality = "Best Quality" then "best/bestaudio"
  else "bestaudio"

/-- The format selector the primary download attempt actually uses
(`_download_thread`, lines 1640-1660): the full selector when FFmpeg is
available, otherwise the hard-coded `bestaudio` override
(`_get_format_selector` never returns `None`, so the guarded branch is
always taken). -/
def format_used (quality : String) (ffmpeg_available : Bool) : String :=
  if ffmpeg_available then get_format_selector quality else "bestaudio"

theorem height_selector_toList (h : String) :
    (height_selector h).toList =
      "bestvideo[height<=".toList ++ h.toList ++ "]+bestaudio/bestvideo[height<=".toList
        ++ h.toList ++ "]/bestaudio".toList := by
  simp [height_selector, String.data_append]

theorem digit_ne_slash_plus (c : Char) (hc : c.isDigit = true) : c ≠ '/' ∧ c ≠ '+' := by
  constructor <;> (intro he; subst he; simp [Char.isDigit] at hc)

theorem height_selector_alts_last (h : String) :
    (splitAlts (height_selector h)).getLast? = some "bestaudio".toList := by
  have hns : '/' ∉ "bestaudio".toList := by decide
  have heq : (height_selector h).toList =
      ("bestvideo[height<=".toList ++ h.toList ++ "]+bestaudio/bestvideo[height<=".toList
        ++ h.toList ++ [']']) ++ '/' :: "bestaudio".toList := by
    rw [height_selector_toList]
    simp
  rw [splitAlts, heq]
  exact splitOnChar_last '/' _ _ hns

theorem splitAlts_ne_nil (s : String) : splitAlts s ≠ [] :=
  splitOnChar_ne_nil '/' s.toList

/-- C2: For every quality tier value (enumerated tiers, arbitrary
numeric "Np" tiers, and unrecognized values) and for both
merge-capability cases, the format-selector function returns a
non-empty `/`-separated alternative list whose last alternative is
`bestaudio`, and when merge is unavailable no returned alternative
contains a `+` (i.e. requires combining separate audio and video
streams). -/
theorem claim_C2_selector_invariant (quality : String) :
    (splitAlts (get_format_selector quality) ≠ [] ∧
      (splitAlts (get_format_selector quality)).getLast? = some "bestaudio".toList) ∧
    (splitAlts (get_no_merge_format_selector quality) ≠ [] ∧
      (splitAlts (get_no_merge_format_selector quality)).getLast? = some "bestaudio".toList ∧
      ∀ seg ∈ splitAlts (get_no_merge_format_selector quality), '+' ∉ seg) := by
  constructor
  · refine ⟨splitAlts_ne_nil _, ?_⟩
    unfold get_format_selector
    split_ifs with h1 h2 h3 h4 h5 h6 h7 h8
    · decide
    · decide
    · decide
    · decide
    · decide
    · decide
    · decide
    · exact height_selector_alts_last (dropLastStr quality)
    · decide
  · refine ⟨splitAlts_ne_nil _, ?_⟩
    unfold get_no_merge_format_selector
    split_ifs with h1 h2 h3 <;> exact ⟨by decide, by decide⟩

theorem claim_C2_witness :
    (splitAlts (get_no_merge_format_selector "Data Saving")).getLast? =
        some "bestaudio".toList ∧
      '+' ∉ ("worst".toList : List Char) ∧
      (splitAlts (get_format_selector "1080p")).getLast? = some "bestaudio".toList :=
  ⟨(claim_C2_selector_invariant "Data Saving").2.2.1,
    (claim_C2_selector_invariant "Data Saving").2.2.2 "worst".toList (by decide),
    (claim_C2_selector_invariant "1080p").1.2⟩

/-- C5 counterexample: with merge unavailable, the selector actually
used by the primary download attempt for the `Data Saving` tier is the
hard-coded `bestaudio`, not the audio-first list `worst/bestaudio` that
`_get_no_merge_format_selector` would supply — so the claimed per-tier
mapping is not what the download attempt uses. -/
theorem claim_C5_counterexample :
    format_used "Data Saving" false = "bestaudio" ∧
      get_no_merge_format_selector "Data Saving" = "worst/bestaudio" ∧
      format_used "Data Saving" false ≠ get_no_merge_format_selector "Data Saving" := by
  refine ⟨rfl, rfl, ?_⟩
  decide

/-- C5 (amended): when merge capability is unavailable, the selector
actually used for the primary download attempt is the single-stream
`bestaudio` for every tier (the per-tier no-merge mapping function
exists in the source but is never consulted by the download path); in
particular no merge-requiring (`+`) selector is requested. -/
theorem claim_C5_no_merge_selector_used (quality : String) :
    format_used quality false = "bestaudio" ∧
      ∀ seg ∈ splitAlts (format_used quality false), '+' ∉ seg := by
  refine ⟨rfl, ?_⟩
  have h : format_used quality false = "bestaudio" := rfl
  rw [h]
  decide

theorem claim_C5_witness :
    format_used "720p" false = "bestaudio" ∧
      '+' ∉ ("bestaudio".toList : List Char) :=
  ⟨(claim_C5_no_merge_selector_used "720p").1,
    (claim_C5_no_merge_selector_used "720p").2 "bestaudio".toList (by decide)⟩

/-! ## ProgressEstimator (`_progress_hook`, lines 1946-2021)

A backend progress event is a bag of optional fields; a key that is
absent and a key whose value is `None` behave identically in every
check the hook performs, so both are modelled as `none`.
`downloaded_bytes` is always present on the events the backend emits
(the spec's `ProgressEvent` lists it as mandatory).  Percentages are
modelled exactly, as rationals. -/

inductive PStatus
  | downloading
  | finished
  | error
deriving DecidableEq

structure ProgressEvent where
  status : PStatus
  downloaded_bytes : Nat
  total_bytes : Option Int := none
  total_bytes_estimate : Option Int := none
  fragment_index : Option Int := none
  fragment_count : Option Int := none
  percent_str : Option String := none
  filename : Option String := none
deriving DecidableEq

/-- Python truthiness of an optional integer field (`d['k']`). -/
def truthyInt : Option Int → Bool
  | some t => t != 0
  | none => false

/-- The compound check `'k' in d and d['k'] and d['k'] > 0`. -/
def truthyPosInt : Option Int → Bool
  | some t => t != 0 && 0 < t
  | none => false

/-- Numeric value of an optional integer field, as a rational. -/
def optIntQ (o : Option Int) : ℚ := ((o.getD 0 : Int) : ℚ)

/-- `_progress_hook` for a `downloading`-status event: the percentage
handed to `_update_progress`, or `none` when the hook performs no
update.  The five `if`/`elif` tiers are translated verbatim. -/
def progressOf (d : ProgressEvent) : Option ℚ :=
  if d.status = PStatus.downloading then
    if truthyPosInt d.total_bytes then
      some ((d.downloaded_bytes : ℚ) / optIntQ d.total_bytes * 100)
    else if truthyPosInt d.total_bytes_estimate then
      some ((d.downloaded_bytes : ℚ) / optIntQ d.total_bytes_estimate * 100)
    else if d.fragment_index.isSome && d.fragment_count.isSome then
      if truthyPosInt d.fragment_count then
        let fragment_progress := optIntQ d.fragment_index / optIntQ d.fragment_count * 100
        if truthyInt d.total_bytes then
          some (fragment_progress +
            (d.downloaded_bytes : ℚ) / optIntQ d.total_bytes * (100 / optIntQ d.fragment_count))
        else some fragment_progress
      else none
    else if d.percent_str.isSome then
      let ps := pyStrip (d.percent_str.getD "")
      if ps ≠ "" ∧ ps ≠ "N/A" ∧ ps ≠ "Unknown" then pyFloat (pyRemoveChar '%' ps)
      else none
    else if d.downloaded_bytes ≠ 0 then
      some (min 50 ((d.downloaded_bytes : ℚ) / (1024 * 1024) * 2))
    else none
  else none

/-! ## Completed-file bookkeeping (`enhanced_progress_hook`, lines 1710-1722)

`downloaded_files` is a Python `set`; it is modelled as a
duplicate-free list, and `add` guarded by the hook's
`filename and filename not in downloaded_files` check. -/

/-- Recording one `finished` event's filename into the session's
completed-file set. -/
def record_finished (downloaded_files : List String) (filename : String) : List String :=
  if filename ≠ "" ∧ filename ∉ downloaded_files then downloaded_files ++ [filename]
  else downloaded_files

/-- C8: processing two or more `finished` progress events carrying the
same filename leaves the completed-file set containing that filename
exactly once — recording a finished filename is idempotent. -/
theorem record_finished_of_mem (l : List String) (f : String) (h : f ∈ l) :
    record_finished l f = l := by
  unfold record_finished
  rw [if_neg]
  intro hc
  exact hc.2 h

theorem mem_record_finished (l : List String) (f : String) (hf : f ≠ "") :
    f ∈ record_finished l f := by
  unfold record_finished
  by_cases h : f ∈ l
  · simp [h]
  · simp [h, hf]

theorem claim_C8_finished_idempotent (files : List String) (f : String) (hf : f ≠ "") :
    record_finished (record_finished files f) f = record_finished files f ∧
      (f ∉ files → (record_finished (record_finished files f) f).count f = 1) := by
  have hmem : f ∈ record_finished files f := mem_record_finished files f hf
  constructor
  · exact record_finished_of_mem _ _ hmem
  · intro hnotin
    have h1 : record_finished files f = files ++ [f] := by
      unfold record_finished
      simp [hf, hnotin]
    rw [record_finished_of_mem _ _ hmem, h1, List.count_append]
    simp [List.count_eq_zero.mpr hnotin]

theorem claim_C8_witness :
    record_finished (record_finished [] "video.mp4") "video.mp4" =
        record_finished [] "video.mp4" ∧
      (record_finished (record_finished [] "video.mp4") "video.mp4").count "video.mp4" = 1 := by
  have h := claim_C8_finished_idempotent [] "video.mp4" (by decide)
  exact ⟨h.1, h.2 (by decide)⟩

/-- C3: for every `downloading` progress event the computed percent
follows the five-tier precedence, first satisfied tier winning:
positive `total_bytes`; else positive `total_bytes_estimate`; else
positive `fragment_count` (adding the intra-fragment part exactly when
the event also carries a non-zero `total_bytes` value); else a
parseable percent string used directly, with unparsable or `N/A`
strings leaving the percent unchanged; else `downloaded_bytes` alone
giving `min 50 (2% per MiB)`. -/
theorem claim_C3_progress_precedence (d : ProgressEvent)
    (hst : d.status = PStatus.downloading) :
    (∀ t : Int, d.total_bytes = some t → 0 < t →
      progressOf d = some ((d.downloaded_bytes : ℚ) / (t : ℚ) * 100)) ∧
    (truthyPosInt d.total_bytes = false →
      ∀ t : Int, d.total_bytes_estimate = some t → 0 < t →
      progressOf d = some ((d.downloaded_bytes : ℚ) / (t : ℚ) * 100)) ∧
    (truthyPosInt d.total_bytes = false → truthyPosInt d.total_bytes_estimate = false →
      ∀ i n : Int, d.fragment_index = some i → d.fragment_count = some n → 0 < n →
      progressOf d = some ((i : ℚ) / (n : ℚ) * 100 +
        if truthyInt d.total_bytes then
          (d.downloaded_bytes : ℚ) / optIntQ d.total_bytes * (100 / (n : ℚ))
        else 0)) ∧
    (truthyPosInt d.total_bytes = false → truthyPosInt d.total_bytes_estimate = false →
      (d.fragment_index.isSome && d.fragment_count.isSome) = false →
      ∀ s : String, d.percent_str = some s →
        (pyStrip s ≠ "" ∧ pyStrip s ≠ "N/A" ∧ pyStrip s ≠ "Unknown" →
          progressOf d = pyFloat (pyRemoveChar '%' (pyStrip s))) ∧
        (pyStrip s = "N/A" → progressOf d = none)) ∧
    (truthyPosInt d.total_bytes = false → truthyPosInt d.total_bytes_estimate = false →
      (d.fragment_index.isSome && d.fragment_count.isSome) = false →
      d.percent_str = none → d.downloaded_bytes ≠ 0 →
      progressOf d = some (min 50 ((d.downloaded_bytes : ℚ) / (1024 * 1024) * 2))) := by
  refine ⟨?_, ?_, ?_, ?_, ?_⟩
  · intro t ht hpos
    have h1 : truthyPosInt d.total_bytes = true := by
      rw [ht]
      simp [truthyPosInt, hpos]
      omega
    unfold progressOf
    rw [if_pos hst, if_pos h1, ht]
    simp [optIntQ]
  · intro hno1 t ht hpos
    have h2 : truthyPosInt d.total_bytes_estimate = true := by
      rw [ht]
      simp [truthyPosInt, hpos]
      omega
    unfold progressOf
    rw [if_pos hst, if_neg (by simp [hno1]), if_pos h2, ht]
    simp [optIntQ]
  · intro hno1 hno2 i n hi hn hpos
    have h3 : truthyPosInt d.fragment_count = true := by
      rw [hn]
      simp [truthyPosInt, hpos]
      omega
    unfold progressOf
    rw [if_pos hst, if_neg (by simp [hno1]), if_neg (by simp [hno2]),
      if_pos (by simp [hi, hn]), if_pos h3]
    by_cases htb : truthyInt d.total_bytes = true
    · rw [if_pos htb, if_pos htb, hi, hn]
      simp [optIntQ]
    · rw [if_neg htb, if_neg htb, hi, hn]
      simp [optIntQ]
  · intro hno1 hno2 hnofrag s hs
    have hfrag : (d.fragment_index.isSome && d.fragment_count.isSome) ≠ true := by
      simp [hnofrag]
    constructor
    · intro hok
      unfold progressOf
      rw [if_pos hst, if_neg (by simp [hno1]), if_neg (by simp [hno2]), if_neg hfrag,
        if_pos (by simp [hs]), hs]
      simp only [Option.getD_some]
      rw [if_pos hok]
    · intro hna
      unfold progressOf
      rw [if_pos hst, if_neg (by simp [hno1]), if_neg (by simp [hno2]), if_neg hfrag,
        if_pos (by simp [hs]), hs]
      simp only [Option.getD_some]
      rw [if_neg]
      intro hc
      exact hc.2.1 hna
  · intro hno1 hno2 hnofrag hps hdb
    unfold progressOf
    rw [if_pos hst, if_neg (by simp [hno1]), if_neg (by simp [hno2]),
      if_neg (by simp [hnofrag]), if_neg (by simp [hps]), if_pos hdb]

/-- The three concrete progress events named by claim C3. -/
def progressEx1 : ProgressEvent :=
  { status := PStatus.downloading, downloaded_bytes := 50,
    total_bytes := some 100, fragment_index := some 3, fragment_count := some 10 }

def progressEx2 : ProgressEvent :=
  { status := PStatus.downloading, downloaded_bytes := 0,
    fragment_index := some 3, fragment_count := some 10 }

def progressEx3 : ProgressEvent :=
  { status := PStatus.downloading, downloaded_bytes := 1048576 }

theorem claim_C3_witness :
    progressOf progressEx1 = some 50 ∧
      progressOf progressEx2 = some 30 ∧
      progressOf progressEx3 = some 2 := by
  refine ⟨?_, ?_, ?_⟩
  · have h := (claim_C3_progress_precedence progressEx1 rfl).1 100 rfl (by norm_num)
    rw [h]
    norm_num [progressEx1]
  · have h := ((claim_C3_progress_precedence progressEx2 rfl).2.2.1)
      rfl rfl 3 10 rfl rfl (by norm_num)
    rw [h]
    norm_num [truthyInt, progressEx2]
  · have h := ((claim_C3_progress_precedence progressEx3 rfl).2.2.2.2)
      rfl rfl rfl rfl (by decide)
    rw [h]
    norm_num [progressEx3]

/-! ## PlaylistRangeResolver, part 1: the selection dialog's range
validation (`select_range`, lines 1011-1039)

`all_entries` enumerates the playlist's non-null entries with 1-based
indices, so the dialog's entry collection is fully described by its
size `count`; a checkbox selection is the list of selected indices. -/

inductive RangeSelectResult
  | invalidInput
  | invalidRange (msg : String)
  | selected (indices : List Nat)
deriving DecidableEq

/-- The item list a backend download could be given from a dialog range
request: only an actual selection yields one. -/
def rangeResultIndices : RangeSelectResult → Option (List Nat)
  | RangeSelectResult.selected l => some l
  | _ => none

/-- `end = int(end_text) if end_text else len(all_entries)` with
`end_text = range_end.get().strip()`. -/
def resolvedEnd (endText : String) (count : Nat) : Option Int :=
  if pyStrip endText = "" then some (count : Int) else pyInt (pyStrip endText)

/-- The dialog's `select_range`: parse both bounds (`ValueError` →
`invalidInput`), validate them against the entry count, and either
report an invalid range or select exactly the videos whose 1-based
index lies in `[start, end]`. -/
def select_range (startText endText : String) (count : Nat) : RangeSelectResult :=
  match pyInt startText, resolvedEnd endText count with
  | none, _ => RangeSelectResult.invalidInput
  | some _, none => RangeSelectResult.invalidInput
  | some start, some e =>
      if start < 1 ∨ start > (count : Int) then
        RangeSelectResult.invalidRange
          ("Start must be between 1 and " ++ toString count)
      else if e < start ∨ e > (count : Int) then
        RangeSelectResult.invalidRange
          ("End must be between " ++ toString start ++ " and " ++ toString count)
      else
        RangeSelectResult.selected
          ((List.range' 1 count).filter (fun i => start ≤ (i : Int) && (i : Int) ≤ e))

/-- C4: for every playlist range request against a known entry count,
the resolver validates `start ≥ 1`, `end ≥ start`, `end ≤ count`; an
out-of-range request yields an `invalidRange` value, from which no
backend item list is derivable, while an in-range request selects
exactly the indices in the requested interval. -/
theorem claim_C4_range_validation (startText endText : String) (count : Nat) (a b : Int)
    (hs : pyInt startText = some a) (he : resolvedEnd endText count = some b) :
    (¬ (1 ≤ a ∧ a ≤ b ∧ b ≤ (count : Int)) →
      (∃ m, select_range startText endText count = RangeSelectResult.invalidRange m) ∧
        rangeResultIndices (select_range startText endText count) = none) ∧
    ((1 ≤ a ∧ a ≤ b ∧ b ≤ (count : Int)) →
      select_range startText endText count =
        RangeSelectResult.selected
          ((List.range' 1 count).filter (fun i => a ≤ (i : Int) && (i : Int) ≤ b))) := by
  constructor
  · intro hbad
    have hcase : a < 1 ∨ a > (count : Int) ∨ b < a ∨ b > (count : Int) := by
      by_cases h1 : a < 1
      · exact Or.inl h1
      · by_cases h2 : b < a
        · exact Or.inr (Or.inr (Or.inl h2))
        · right; right; right
          omega
    unfold select_range
    rw [hs, he]
    dsimp only
    rcases hcase with h | h | h | h
    · rw [if_pos (Or.inl h)]
      exact ⟨⟨_, rfl⟩, rfl⟩
    · rw [if_pos (Or.inr h)]
      exact ⟨⟨_, rfl⟩, rfl⟩
    · by_cases h1 : a < 1 ∨ a > (count : Int)
      · rw [if_pos h1]
        exact ⟨⟨_, rfl⟩, rfl⟩
      · rw [if_neg h1, if_pos (Or.inl h)]
        exact ⟨⟨_, rfl⟩, rfl⟩
    · by_cases h1 : a < 1 ∨ a > (count : Int)
      · rw [if_pos h1]
        exact ⟨⟨_, rfl⟩, rfl⟩
      · rw [if_neg h1, if_pos (Or.inr h)]
        exact ⟨⟨_, rfl⟩, rfl⟩
  · intro hok
    unfold select_range
    rw [hs, he]
    dsimp only
    rw [if_neg (by omega), if_neg (by omega)]

theorem claim_C4_witness :
    ((∃ m, select_range "5" "3" 10 = RangeSelectResult.invalidRange m) ∧
        rangeResultIndices (select_range "5" "3" 10) = none) ∧
      ((∃ m, select_range "11" "" 10 = RangeSelectResult.invalidRange m) ∧
        rangeResultIndices (select_range "11" "" 10) = none) ∧
      select_range "1" "10" 10 =
        RangeSelectResult.selected [1, 2, 3, 4, 5, 6, 7, 8, 9, 10] := by
  refine ⟨?_, ?_, ?_⟩
  · exact (claim_C4_range_validation "5" "3" 10 5 3 (by decide) (by decide)).1
      (by intro h; omega)
  · exact (claim_C4_range_validation "11" "" 10 11 10 (by decide) (by decide)).1
      (by intro h; omega)
  · have h := (claim_C4_range_validation "1" "10" 10 1 10 (by decide) (by decide)).2
      (by omega)
    rw [h]
    decide

/-! ## PlaylistRangeResolver, part 2: selection consumption
(`apply_selection`, lines 1184-1224, and `_download_thread`
lines 1666-1702)

The session state the download thread consults consists of the
individually selected indices, the two range text variables, and the
playlist-mode checkbox. -/

structure PlaylistState where
  selected_indices : List Nat
  start_text : String
  end_text : String
  playlist_mode : Bool
deriving DecidableEq

/-- The dialog's `apply_selection`: an empty choice only warns;
otherwise the chosen indices are sorted and stored, and the range text
variables are set to the smallest and largest chosen index. -/
def apply_selection (chosen : List Nat) (st : PlaylistState) : PlaylistState :=
  if chosen = [] then st
  else
    { st with
      selected_indices := List.insertionSort (· ≤ ·) chosen,
      start_text := toString (chosen.foldl min (chosen.headD 0)),
      end_text := toString (chosen.foldl max (chosen.headD 0)) }

/-- `','.join(map(str, indices))`. -/
def comma_join (indices : List Nat) : String :=
  String.intercalate "," (indices.map toString)

/-- The `playlist_items` range string `f'{start}-{end}'` /
`f'{start}-'` built by the range branch of `_download_thread`. -/
def range_items_string (start : Int) (e : Option Int) : String :=
  match e with
  | some v => toString start ++ "-" ++ toString v
  | none => toString start ++ "-"

/-- The playlist-selection logic of `_download_thread`: returns the
`playlist_items` option handed to the backend (if any) together with
the session state after the request. -/
def resolve_playlist_items (st : PlaylistState) : Option String × PlaylistState :=
  if st.playlist_mode = false then (none, st)
  else if st.selected_indices ≠ [] then
    (some (comma_join st.selected_indices), { st with selected_indices := [] })
  else if st.start_text ≠ "" ∨ st.end_text ≠ "" then
    let start : Int := if st.start_text ≠ "" then (pyInt st.start_text).getD 1 else 1
    let endv : Option Int := if st.end_text ≠ "" then pyInt st.end_text else none
    if truthyInt endv then (some (range_items_string start endv), st)
    else (some (range_items_string start none), st)
  else (none, st)

/-- If the session state carries no explicit indices, the resolver
output is either unrestricted or a range-derived item string — never an
index list. -/
theorem resolve_no_indices (st : PlaylistState) (h : st.selected_indices = []) :
    (resolve_playlist_items st).1 = none ∨
      ∃ s e, (resolve_playlist_items st).1 = some (range_items_string s e) := by
  unfold resolve_playlist_items
  by_cases hm : st.playlist_mode = false
  · rw [if_pos hm]
    exact Or.inl rfl
  · rw [if_neg hm, if_neg (by simp [h])]
    by_cases htext : st.start_text ≠ "" ∨ st.end_text ≠ ""
    · rw [if_pos htext]
      dsimp only
      split_ifs with htr
      all_goals exact Or.inr ⟨_, _, rfl⟩
    · rw [if_neg htext]
      exact Or.inl rfl

/-- C7: a download request with a non-empty explicit playlist selection
sends the sorted comma-joined index list to the backend and clears the
selection from session state; a subsequent request without new explicit
indices resolves through the range/whole-collection path only — it
cannot reuse the consumed indices. -/
theorem claim_C7_selection_consumed (st : PlaylistState) (chosen : List Nat)
    (hmode : st.playlist_mode = true) (hch : chosen ≠ []) :
    (∃ sorted, List.Sorted (· ≤ ·) sorted ∧ sorted.Perm chosen ∧
      (resolve_playlist_items (apply_selection chosen st)).1 = some (comma_join sorted)) ∧
    (resolve_playlist_items (apply_selection chosen st)).2.selected_indices = [] ∧
    ((resolve_playlist_items ((resolve_playlist_items (apply_selection chosen st)).2)).1
        = none ∨
      ∃ s e, (resolve_playlist_items ((resolve_playlist_items (apply_selection chosen st)).2)).1
        = some (range_items_string s e)) := by
  have hst1 : apply_selection chosen st =
      { st with
        selected_indices := List.insertionSort (· ≤ ·) chosen,
        start_text := toString (chosen.foldl min (chosen.headD 0)),
        end_text := toString (chosen.foldl max (chosen.headD 0)) } := by
    unfold apply_selection
    rw [if_neg hch]
  have hperm : (List.insertionSort (· ≤ ·) chosen).Perm chosen :=
    List.perm_insertionSort _ chosen
  have hne : List.insertionSort (· ≤ ·) chosen ≠ [] := by
    intro h
    apply hch
    have h2 := hperm
    rw [h] at h2
    exact List.Perm.eq_nil h2.symm
  have hr1 : resolve_playlist_items (apply_selection chosen st) =
      (some (comma_join (List.insertionSort (· ≤ ·) chosen)),
        { st with
          selected_indices := [],
          start_text := toString (chosen.foldl min (chosen.headD 0)),
          end_text := toString (chosen.foldl max (chosen.headD 0)) }) := by
    rw [hst1]
    unfold resolve_playlist_items
    rw [if_neg (by simp [hmode]), if_pos (by simpa using hne)]
  have h2 : (resolve_playlist_items (apply_selection chosen st)).2.selected_indices = [] := by
    rw [hr1]
  exact ⟨⟨List.insertionSort (· ≤ ·) chosen,
    List.sorted_insertionSort _ chosen, hperm, by rw [hr1]⟩, h2,
    resolve_no_indices _ h2⟩

theorem claim_C7_witness :
    (∃ sorted, List.Sorted (· ≤ ·) sorted ∧ sorted.Perm [3, 1, 5] ∧
      (resolve_playlist_items
        (apply_selection [3, 1, 5] ⟨[], "", "", true⟩)).1 = some (comma_join sorted)) ∧
      (resolve_playlist_items (apply_selection [3, 1, 5] ⟨[], "", "", true⟩)).2.selected_indices
        = [] := by
  have h := claim_C7_selection_consumed ⟨[], "", "", true⟩ [3, 1, 5] rfl (by decide)
  exact ⟨h.1, h.2.1⟩

/-! ## URL validation and `start_download` (lines 1574-1617)

The five `re.match`-anchored patterns of `is_valid_youtube_url` are
deterministic (no backtracking is observable: the optional pieces are
distinguished by their first character), so each is embedded as a
prefix matcher followed by a `[\w-]+` head test. -/

/-- Strip an exact literal prefix, or fail. -/
def stripLit : List Char → List Char → Option (List Char)
  | [], s => some s
  | _ :: _, [] => none
  | p :: ps, c :: cs => if c = p then stripLit ps cs else none

/-- `https?://`. -/
def afterScheme (s : List Char) : Option (List Char) :=
  match stripLit "https://".toList s with
  | some r => some r
  | none => stripLit "http://".toList s

/-- `(?:www\.)?`. -/
def afterOptWww (s : List Char) : List Char :=
  match stripLit "www.".toList s with
  | some r => r
  | none => s

/-- `[\w-]+` at the current position (ASCII `\w`). -/
def headWordChar : List Char → Bool
  | [] => false
  | c :: _ => c.isAlphanum || c = '_' || c = '-'

/-- Literal host/path prefix followed by `[\w-]+`. -/
def matchHostPath (pat : String) (s : List Char) : Bool :=
  match stripLit pat.toList s with
  | some r => headWordChar r
  | none => false

/-- `is_valid_youtube_url`: any of the five patterns matches at the
start of the string. -/
def is_valid_youtube_url (url : String) : Bool :=
  match afterScheme url.toList with
  | none => false
  | some r =>
      let r2 := afterOptWww r
      matchHostPath "youtube.com/watch?v=" r2 ||
      matchHostPath "youtube.com/playlist?list=" r2 ||
      matchHostPath "youtu.be/" r ||
      matchHostPath "youtube.com/channel/" r2 ||
      matchHostPath "youtube.com/@" r2

inductive StartOutcome
  | errorNoUrl
  | errorInvalidUrl
  | started
deriving DecidableEq

/-- `start_download`: validate the (stripped) URL, then unconditionally
flip the downloading flag and spawn the download thread.  The current
value of the `is_downloading` flag is passed in to show that the
function never consults it (directory creation, an interaction with the
external file system, is elided). -/
def start_download (urlRaw : String) (is_downloading : Bool) : StartOutcome :=
  let url := pyStrip urlRaw
  if url = "" then StartOutcome.errorNoUrl
  else if !is_valid_youtube_url url then StartOutcome.errorInvalidUrl
  else StartOutcome.started

/-- C9 counterexample: invoking `start_download` with a valid URL while
the downloading flag is already set is not rejected — it starts a
second session, and the outcome is entirely independent of the flag. -/
theorem claim_C9_counterexample :
    start_download "https://www.youtube.com/watch?v=dQw4w9WgXcQ" true
        = StartOutcome.started ∧
      start_download "https://www.youtube.com/watch?v=dQw4w9WgXcQ" true
        = start_download "https://www.youtube.com/watch?v=dQw4w9WgXcQ" false := by
  exact ⟨by decide, rfl⟩

/-- C9 (amended): `start_download` validates only the URL; it never
consults the downloading flag, so a call made while a session is active
behaves exactly like one made while idle and starts a new session
whenever the URL is valid.  Single-session exclusion is enforced only
at the invocation sites (the start button is disabled during a session
and the F9 shortcut checks the flag before calling). -/
theorem claim_C9_start_unguarded (url : String) (b1 b2 : Bool) :
    start_download url b1 = start_download url b2 ∧
      (pyStrip url ≠ "" → is_valid_youtube_url (pyStrip url) = true →
        start_download url b1 = StartOutcome.started) := by
  constructor
  · rfl
  · intro hne hvalid
    unfold start_download
    rw [if_neg hne, if_neg (by simp [hvalid])]

theorem claim_C9_witness :
    start_download "https://youtu.be/abc123" true = start_download "https://youtu.be/abc123" false ∧
      start_download "https://youtu.be/abc123" true = StartOutcome.started :=
  ⟨(claim_C9_start_unguarded "https://youtu.be/abc123" true false).1,
    (claim_C9_start_unguarded "https://youtu.be/abc123" true false).2 (by decide) (by decide)⟩

/-! ## Backend option dictionaries (`_download_thread` lines 1628-1668,
`_fallback_download` lines 1862-1872, `_desperate_fallback`
lines 1893-1901)

`YdlOpts` records exactly the keys these three sites may place in the
`ydl_opts` dictionary; a key that a site does not set keeps the field's
default, mirroring an absent dictionary key.  Output paths are joined
with `/` (`str(Path(dir) / name)` on a POSIX system). -/

structure Request where
  download_path : String
  quality : String
  subtitle : Bool
  playlist : Bool
  playlist_start : String
  playlist_end : String
  selected_indices : List Nat
deriving DecidableEq

structure YdlOpts where
  format : Option String := none
  outtmpl : Option String := none
  noplaylist : Bool := false
  writesubtitles : Bool := false
  writeautomaticsub : Bool := false
  playlist_items : Option String := none
  retries : Option Nat := none
  fragment_retries : Option Nat := none
  extractor_retries : Option Nat := none
  ignoreerrors : Bool := false
  quiet : Bool := false
  has_progress_hooks : Bool := false
deriving DecidableEq

/-- Options for fallback attempt `i` (0-based) in `_fallback_download`:
minimal settings plus the attempt's own format and suffixed template. -/
def fallback_ydl_opts (req : Request) (i : Nat) (fmt : String) : YdlOpts :=
  { format := some fmt,
    outtmpl := some (req.download_path ++ "/" ++ "%(title)s_fallback"
      ++ toString (i + 1) ++ ".%(ext)s"),
    has_progress_hooks := true,
    noplaylist := !req.playlist }

/-- Options for the last-resort attempt in `_desperate_fallback`. -/
def desperate_ydl_opts (req : Request) : YdlOpts :=
  { format := some "bestaudio",
    outtmpl := some (req.download_path ++ "/" ++ "%(title)s_desperate.%(ext)s"),
    quiet := true,
    noplaylist := !req.playlist }

/-- C10 counterexample: the claim's "containing only the fallback
format, a suffixed output template, and the single-item constraint" is
not exhaustive — the ordered fallback attempts also register a
progress-hook callback, and the final minimal attempt also sets the
backend's quiet flag. -/
theorem claim_C10_counterexample :
    (fallback_ydl_opts ⟨"dl", "Best Quality", true, false, "", "", []⟩ 0
      "bestaudio").has_progress_hooks = true ∧
      (desperate_ydl_opts ⟨"dl", "Best Quality", true, false, "", "", []⟩).quiet = true :=
  ⟨rfl, rfl⟩

/-- C10 (amended): every fallback attempt and the final minimal attempt
build their backend options from scratch, containing only the fallback
format, a suffixed output template, the single-item constraint when
playlist mode is off, and attempt-local plumbing (a progress-hook
registration for the ordered fallbacks, the quiet flag for the final
attempt); the primary attempt's subtitle flags, playlist item/range
selector, and retry settings are never applied to any fallback attempt,
even when the user requested them — the options depend on nothing in
the request beyond the destination directory and the playlist-mode
flag. -/
theorem claim_C10_fallback_opts_minimal (req req2 : Request) (i : Nat) (fmt : String)
    (hpath : req.download_path = req2.download_path)
    (hmode : req.playlist = req2.playlist) :
    ((fallback_ydl_opts req i fmt).writesubtitles = false ∧
      (fallback_ydl_opts req i fmt).writeautomaticsub = false ∧
      (fallback_ydl_opts req i fmt).playlist_items = none ∧
      (fallback_ydl_opts req i fmt).retries = none ∧
      (fallback_ydl_opts req i fmt).fragment_retries = none ∧
      (fallback_ydl_opts req i fmt).extractor_retries = none ∧
      (fallback_ydl_opts req i fmt).ignoreerrors = false ∧
      (fallback_ydl_opts req i fmt).format = some fmt ∧
      (fallback_ydl_opts req i fmt).outtmpl = some (req.download_path ++ "/"
        ++ "%(title)s_fallback" ++ toString (i + 1) ++ ".%(ext)s") ∧
      (fallback_ydl_opts req i fmt).noplaylist = !req.playlist) ∧
    ((desperate_ydl_opts req).writesubtitles = false ∧
      (desperate_ydl_opts req).writeautomaticsub = false ∧
      (desperate_ydl_opts req).playlist_items = none ∧
      (desperate_ydl_opts req).retries = none ∧
      (desperate_ydl_opts req).fragment_retries = none ∧
      (desperate_ydl_opts req).extractor_retries = none ∧
      (desperate_ydl_opts req).ignoreerrors = false ∧
      (desperate_ydl_opts req).has_progress_hooks = false ∧
      (desperate_ydl_opts req).format = some "bestaudio" ∧
      (desperate_ydl_opts req).noplaylist = !req.playlist) ∧
    (fallback_ydl_opts req i fmt = fallback_ydl_opts req2 i fmt ∧
      desperate_ydl_opts req = desperate_ydl_opts req2) := by
  refine ⟨⟨rfl, rfl, rfl, rfl, rfl, rfl, rfl, rfl, rfl, rfl⟩,
    ⟨rfl, rfl, rfl, rfl, rfl, rfl, rfl, rfl, rfl, rfl⟩, ?_, ?_⟩
  · unfold fallback_ydl_opts
    rw [hpath, hmode]
  · unfold desperate_ydl_opts
    rw [hpath, hmode]

theorem claim_C10_witness :
    (fallback_ydl_opts ⟨"d", "720p", true, true, "2", "7", [1, 2]⟩ 2
        "bestvideo+bestaudio").playlist_items = none ∧
      (fallback_ydl_opts ⟨"d", "720p", true, true, "2", "7", [1, 2]⟩ 2
        "bestvideo+bestaudio").writesubtitles = false ∧
      fallback_ydl_opts ⟨"d", "720p", true, true, "2", "7", [1, 2]⟩ 2 "bestvideo+bestaudio"
        = fallback_ydl_opts ⟨"d", "720p", false, true, "", "", []⟩ 2 "bestvideo+bestaudio" := by
  have h := claim_C10_fallback_opts_minimal ⟨"d", "720p", true, true, "2", "7", [1, 2]⟩
    ⟨"d", "720p", false, true, "", "", []⟩ 2 "bestvideo+bestaudio" rfl rfl
  exact ⟨h.1.2.2.1, h.1.1, h.2.2.1⟩

/-! ## FallbackChain / DownloadController with cancellation
(`_download_thread` lines 1618-1836, `_fallback_download` lines
1846-1888, `_desperate_fallback` lines 1890-1913, `_progress_hook`
lines 1946-1950)

The session is interpreted against an abstract backend: each attempt is
described by the number of progress callbacks the backend would invoke
and by whether it ultimately raises.  Time is a tick counter that
advances once per emitted event; the user's single shared
`is_downloading` flag is true exactly for ticks below `cancelTick`
(cancellation is monotone: once cleared it stays cleared).  A pre-attempt
flag check and the attempt start it guards are atomic (one tick), which
is precisely the sense in which the source checks the flag "before
starting" an attempt.  A `KeyboardInterrupt` raised by a hook is not a
Python `Exception`, so it escapes every `except Exception` handler and
terminates the whole session — the interpreter encodes exactly that
propagation. -/

inductive AttemptId
  | primary
  | fallback (i : Nat)
  | desperate
deriving DecidableEq

structure AttemptBehavior where
  callbacks : Nat
  raises : Option String
deriving DecidableEq

inductive SessEv
  | checkFlag (observed : Bool)
  | attemptStart (a : AttemptId) (flagState : Bool)
  | callbackSeen (a : AttemptId) (observed : Bool)
deriving DecidableEq

/-- The shared `is_downloading` flag at tick `t`. -/
def flagAt (cancelTick t : Nat) : Bool := t < cancelTick

inductive AttemptOutcome
  | ok
  | raised (e : String)
  | interrupted
deriving DecidableEq

/-- Run `n` progress callbacks of attempt `a`; every callback first
checks the flag (`_progress_hook` / `enhanced_progress_hook`) and
raises `KeyboardInterrupt` when it reads false.  Returns the events,
the next tick, and whether the attempt was interrupted. -/
def runCallbacks (cancelTick : Nat) (a : AttemptId) :
    Nat → Nat → List SessEv × Nat × Bool
  | 0, t => ([], t, false)
  | n + 1, t =>
      if flagAt cancelTick t then
        let r := runCallbacks cancelTick a n (t + 1)
        (SessEv.callbackSeen a true :: r.1, r.2.1, r.2.2)
      else ([SessEv.callbackSeen a false], t + 1, true)

/-- Run one attempt that is guarded by a pre-attempt flag check and
registers the progress hook (the primary attempt and each ordered
fallback attempt).  `none` outcome means the pre-check read false and
the attempt never started. -/
def runGuardedAttempt (cancelTick : Nat) (a : AttemptId) (b : AttemptBehavior)
    (t : Nat) : List SessEv × Nat × Option AttemptOutcome :=
  if flagAt cancelTick t then
    let r := runCallbacks cancelTick a b.callbacks (t + 1)
    let out := if r.2.2 then AttemptOutcome.interrupted
      else match b.raises with
        | some e => AttemptOutcome.raised e
        | none => AttemptOutcome.ok
    (SessEv.checkFlag true :: SessEv.attemptStart a true :: r.1, r.2.1, some out)
  else ([SessEv.checkFlag false], t + 1, none)

/-- The last-resort attempt (`_desperate_fallback`): no pre-attempt
flag check and no progress hook — its backend activity consumes time
but never observes the flag. -/
def runDesperate (cancelTick : Nat) (b : AttemptBehavior) (t : Nat) :
    List SessEv × Nat × AttemptOutcome :=
  ([SessEv.attemptStart AttemptId.desperate (flagAt cancelTick t)],
    t + 1 + b.callbacks,
    match b.raises with
    | some e => AttemptOutcome.raised e
    | none => AttemptOutcome.ok)

inductive FallbackResult
  | stoppedByFlag
  | succeeded
  | interrupted
  | exhausted
deriving DecidableEq

/-- The loop of `_fallback_download` over its fixed format list,
starting at 1-based attempt number `i`: each iteration checks the flag
(returning quietly when it is clear), runs the attempt, reports success
(after one more flag read guarding `_download_complete`), lets a raised
exception continue to the next format, and lets `KeyboardInterrupt`
escape. -/
def runFallbackList (cancelTick : Nat) :
    Nat → Nat → List AttemptBehavior → List SessEv × Nat × FallbackResult
  | _, t, [] => ([], t, FallbackResult.exhausted)
  | i, t, b :: rest =>
      match runGuardedAttempt cancelTick (AttemptId.fallback i) b t with
      | (evs, t2, none) => (evs, t2, FallbackResult.stoppedByFlag)
      | (evs, t2, some AttemptOutcome.interrupted) =>
          (evs, t2, FallbackResult.interrupted)
      | (evs, t2, some AttemptOutcome.ok) =>
          (evs ++ [SessEv.checkFlag (flagAt cancelTick t2)], t2 + 1,
            FallbackResult.succeeded)
      | (evs, t2, some (AttemptOutcome.raised _)) =>
          let r := runFallbackList cancelTick (i + 1) t2 rest
          (evs ++ r.1, r.2.1, r.2.2)

/-- One whole download session (`_download_thread`): guarded primary
attempt; on a raised error, fall back only when the error text does not
contain `403`/`forbidden` (lower-cased) and nothing was downloaded;
when the ordered fallbacks are exhausted, run the unguarded minimal
attempt.  Success paths read the flag once more before reporting. -/
def runSession (cancelTick : Nat) (primary : AttemptBehavior)
    (fbs : List AttemptBehavior) (desp : AttemptBehavior)
    (filesEmpty : Bool) : List SessEv :=
  match runGuardedAttempt cancelTick AttemptId.primary primary 0 with
  | (evs, _, none) => evs
  | (evs, _, some AttemptOutcome.interrupted) => evs
  | (evs, t2, some AttemptOutcome.ok) =>
      evs ++ [SessEv.checkFlag (flagAt cancelTick t2)]
  | (evs, t2, some (AttemptOutcome.raised e)) =>
      if pyContains (pyLower e) "403" || pyContains (pyLower e) "forbidden"
          || !filesEmpty then
        evs
      else
        let r := runFallbackList cancelTick 1 t2 fbs
        match r.2.2 with
        | FallbackResult.exhausted =>
            let rd := runDesperate cancelTick desp r.2.1
            (match rd.2.2 with
             | AttemptOutcome.ok =>
                 evs ++ r.1 ++ rd.1 ++ [SessEv.checkFlag (flagAt cancelTick rd.2.1)]
             | _ => evs ++ r.1 ++ rd.1)
        | _ => evs ++ r.1

/-! ### Trace predicates -/

/-- An event that observes the cancellation flag as cleared. -/
def isFalseObs : SessEv → Bool
  | SessEv.checkFlag false => true
  | SessEv.callbackSeen _ false => true
  | _ => false

/-- No event of the trace observes the flag as cleared. -/
def noFalse (tr : List SessEv) : Prop := ∀ ev ∈ tr, isFalseObs ev = false

/-- Every observation of the cleared flag is the final event of the
trace: nothing — in particular no further attempt — happens after
cancellation is observed. -/
def falseObsTerminal (tr : List SessEv) : Prop :=
  ∀ pre ev post, tr = pre ++ ev :: post → isFalseObs ev = true → post = []

theorem noFalse_nil : noFalse [] := by
  intro ev h
  simp at h

theorem noFalse_cons {x : SessEv} {tr : List SessEv} (hx : isFalseObs x = false)
    (h : noFalse tr) : noFalse (x :: tr) := by
  intro ev hev
  rcases List.mem_cons.mp hev with h1 | h1
  · exact h1 ▸ hx
  · exact h ev h1

theorem noFalse_append {t1 t2 : List SessEv} (h1 : noFalse t1) (h2 : noFalse t2) :
    noFalse (t1 ++ t2) := by
  intro ev hev
  rcases List.mem_append.mp hev with h | h
  · exact h1 ev h
  · exact h2 ev h

theorem fot_nil : falseObsTerminal [] := by
  intro pre ev post hdec
  exact absurd hdec.symm (by simp)

theorem fot_singleton (ev0 : SessEv) : falseObsTerminal [ev0] := by
  intro pre ev post hdec _
  cases pre with
  | nil =>
      simp at hdec
      exact hdec.2
  | cons p pre2 =>
      simp at hdec

theorem fot_cons {x : SessEv} {tr : List SessEv} (hx : isFalseObs x = false)
    (h : falseObsTerminal tr) : falseObsTerminal (x :: tr) := by
  intro pre ev post hdec hobs
  cases pre with
  | nil =>
      simp at hdec
      rw [← hdec.1] at hobs
      rw [hobs] at hx
      cases hx
  | cons p pre2 =>
      simp at hdec
      exact h pre2 ev post hdec.2 hobs

theorem fot_of_noFalse {tr : List SessEv} (h : noFalse tr) : falseObsTerminal tr := by
  intro pre ev post hdec hobs
  have hmem : ev ∈ tr := by
    rw [hdec]
    simp
  rw [h ev hmem] at hobs
  cases hobs

theorem fot_append {t1 t2 : List SessEv} (h1 : noFalse t1) (h2 : falseObsTerminal t2) :
    falseObsTerminal (t1 ++ t2) := by
  induction t1 with
  | nil => exact h2
  | cons x t1 ih =>
      have hx : isFalseObs x = false := h1 x (List.mem_cons_self x t1)
      have h1r : noFalse t1 := fun ev hev => h1 ev (List.mem_cons_of_mem x hev)
      exact fot_cons hx (ih h1r)

/-! ### Per-component trace facts -/

theorem runCallbacks_events (ct : Nat) (a : AttemptId) (n t : Nat) :
    ∀ ev ∈ (runCallbacks ct a n t).1, ∃ b, ev = SessEv.callbackSeen a b := by
  induction n generalizing t with
  | zero =>
      intro ev h
      simp [runCallbacks] at h
  | succ n ih =>
      intro ev h
      by_cases hf : flagAt ct t
      · simp only [runCallbacks, if_pos hf] at h
        rcases List.mem_cons.mp h with h1 | h1
        · exact ⟨true, h1⟩
        · exact ih (t + 1) ev h1
      · simp only [runCallbacks, if_neg hf] at h
        simp at h
        exact ⟨false, h⟩

theorem runCallbacks_noFalse (ct : Nat) (a : AttemptId) (n t : Nat)
    (h : (runCallbacks ct a n t).2.2 = false) :
    noFalse (runCallbacks ct a n t).1 := by
  induction n generalizing t with
  | zero =>
      simp only [runCallbacks]
      exact noFalse_nil
  | succ n ih =>
      by_cases hf : flagAt ct t
      · have h2 : (runCallbacks ct a n (t + 1)).2.2 = false := by
          simpa only [runCallbacks, if_pos hf] using h
        simp only [runCallbacks, if_pos hf]
        exact noFalse_cons rfl (ih (t + 1) h2)
      · exfalso
        simp [runCallbacks, hf] at h

theorem runCallbacks_fot (ct : Nat) (a : AttemptId) (n t : Nat) :
    falseObsTerminal (runCallbacks ct a n t).1 := by
  induction n generalizing t with
  | zero =>
      simp only [runCallbacks]
      exact fot_nil
  | succ n ih =>
      by_cases hf : flagAt ct t
      · simp only [runCallbacks, if_pos hf]
        exact fot_cons rfl (ih (t + 1))
      · simp only [runCallbacks, if_neg hf]
        exact fot_singleton _

theorem runGuardedAttempt_events (ct : Nat) (a : AttemptId) (b : AttemptBehavior) (t : Nat) :
    ∀ ev ∈ (runGuardedAttempt ct a b t).1,
      (∃ bf, ev = SessEv.checkFlag bf) ∨ ev = SessEv.attemptStart a true ∨
        ∃ b2, ev = SessEv.callbackSeen a b2 := by
  intro ev h
  by_cases hf : flagAt ct t
  · simp only [runGuardedAttempt, if_pos hf] at h
    rcases List.mem_cons.mp h with h1 | h1
    · exact Or.inl ⟨true, h1⟩
    · rcases List.mem_cons.mp h1 with h2 | h2
      · exact Or.inr (Or.inl h2)
      · exact Or.inr (Or.inr (runCallbacks_events ct a b.callbacks (t + 1) ev h2))
  · simp only [runGuardedAttempt, if_neg hf] at h
    simp at h
    exact Or.inl ⟨false, h⟩

theorem runGuardedAttempt_noFalse (ct : Nat) (a : AttemptId) (b : AttemptBehavior) (t : Nat)
    (h : (runGuardedAttempt ct a b t).2.2 = some AttemptOutcome.ok ∨
      ∃ e, (runGuardedAttempt ct a b t).2.2 = some (AttemptOutcome.raised e)) :
    noFalse (runGuardedAttempt ct a b t).1 := by
  by_cases hf : flagAt ct t
  · have hintr : (runCallbacks ct a b.callbacks (t + 1)).2.2 = false := by
      by_contra hc
      have hb : (runCallbacks ct a b.callbacks (t + 1)).2.2 = true := by
        simpa using hc
      rcases h with h | ⟨e, h⟩ <;> simp [runGuardedAttempt, hf, hb] at h
    simp only [runGuardedAttempt, if_pos hf]
    exact noFalse_cons rfl
      (noFalse_cons rfl (runCallbacks_noFalse ct a b.callbacks (t + 1) hintr))
  · rcases h with h | ⟨e, h⟩ <;> simp [runGuardedAttempt, hf] at h

theorem runGuardedAttempt_fot (ct : Nat) (a : AttemptId) (b : AttemptBehavior) (t : Nat) :
    falseObsTerminal (runGuardedAttempt ct a b t).1 := by
  by_cases hf : flagAt ct t
  · simp only [runGuardedAttempt, if_pos hf]
    exact fot_cons rfl (fot_cons rfl (runCallbacks_fot ct a b.callbacks (t + 1)))
  · simp only [runGuardedAttempt, if_neg hf]
    exact fot_singleton _

theorem runFallbackList_events (ct : Nat) (fbs : List AttemptBehavior) :
    ∀ (i t : Nat), ∀ ev ∈ (runFallbackList ct i t fbs).1,
      (∃ bf, ev = SessEv.checkFlag bf) ∨
      (∃ j, ev = SessEv.attemptStart (AttemptId.fallback j) true) ∨
      ∃ j b2, ev = SessEv.callbackSeen (AttemptId.fallback j) b2 := by
  induction fbs with
  | nil =>
      intro i t ev h
      simp [runFallbackList] at h
  | cons b rest ih =>
      intro i t ev h
      rcases hg : runGuardedAttempt ct (AttemptId.fallback i) b t with ⟨gevs, gt, gout⟩
      have hge := runGuardedAttempt_events ct (AttemptId.fallback i) b t
      rw [hg] at hge
      have conv1 : ∀ ev2, ev2 ∈ gevs →
          (∃ bf, ev2 = SessEv.checkFlag bf) ∨
          (∃ j, ev2 = SessEv.attemptStart (AttemptId.fallback j) true) ∨
          ∃ j b2, ev2 = SessEv.callbackSeen (AttemptId.fallback j) b2 := by
        intro ev2 h2
        rcases hge ev2 h2 with h3 | h3 | ⟨b2, h3⟩
        · exact Or.inl h3
        · exact Or.inr (Or.inl ⟨i, h3⟩)
        · exact Or.inr (Or.inr ⟨i, b2, h3⟩)
      cases gout with
      | none =>
          simp only [runFallbackList, hg] at h
          exact conv1 ev h
      | some o =>
          cases o with
          | ok =>
              simp only [runFallbackList, hg] at h
              rcases List.mem_append.mp h with h1 | h1
              · exact conv1 ev h1
              · simp at h1
                exact Or.inl ⟨_, h1⟩
          | interrupted =>
              simp only [runFallbackList, hg] at h
              exact conv1 ev h
          | raised e =>
              simp only [runFallbackList, hg] at h
              rcases List.mem_append.mp h with h1 | h1
              · exact conv1 ev h1
              · exact ih (i + 1) gt ev h1

theorem runFallbackList_fot (ct : Nat) (fbs : List AttemptBehavior) :
    ∀ (i t : Nat), falseObsTerminal (runFallbackList ct i t fbs).1 := by
  induction fbs with
  | nil =>
      intro i t
      simp only [runFallbackList]
      exact fot_nil
  | cons b rest ih =>
      intro i t
      rcases hg : runGuardedAttempt ct (AttemptId.fallback i) b t with ⟨gevs, gt, gout⟩
      have hfot := runGuardedAttempt_fot ct (AttemptId.fallback i) b t
      rw [hg] at hfot
      cases gout with
      | none =>
          simp only [runFallbackList, hg]
          exact hfot
      | some o =>
          cases o with
          | ok =>
              have hnf : noFalse gevs := by
                have := runGuardedAttempt_noFalse ct (AttemptId.fallback i) b t
                  (Or.inl (by rw [hg]))
                rwa [hg] at this
              simp only [runFallbackList, hg]
              exact fot_append hnf (fot_singleton _)
          | interrupted =>
              simp only [runFallbackList, hg]
              exact hfot
          | raised e =>
              have hnf : noFalse gevs := by
                have := runGuardedAttempt_noFalse ct (AttemptId.fallback i) b t
                  (Or.inr ⟨e, by rw [hg]⟩)
                rwa [hg] at this
              simp only [runFallbackList, hg]
              exact fot_append hnf (ih (i + 1) gt)

theorem runFallbackList_noFalse (ct : Nat) (fbs : List AttemptBehavior) :
    ∀ (i t : Nat), (runFallbackList ct i t fbs).2.2 = FallbackResult.exhausted →
      noFalse (runFallbackList ct i t fbs).1 := by
  induction fbs with
  | nil =>
      intro i t _
      simp only [runFallbackList]
      exact noFalse_nil
  | cons b rest ih =>
      intro i t h
      rcases hg : runGuardedAttempt ct (AttemptId.fallback i) b t with ⟨gevs, gt, gout⟩
      cases gout with
      | none =>
          simp only [runFallbackList, hg] at h
          cases h
      | some o =>
          cases o with
          | ok =>
              simp only [runFallbackList, hg] at h
              cases h
          | interrupted =>
              simp only [runFallbackList, hg] at h
              cases h
          | raised e =>
              have hnf : noFalse gevs := by
                have := runGuardedAttempt_noFalse ct (AttemptId.fallback i) b t
                  (Or.inr ⟨e, by rw [hg]⟩)
                rwa [hg] at this
              simp only [runFallbackList, hg] at h ⊢
              exact noFalse_append hnf (ih (i + 1) gt h)

theorem runDesperate_events (ct : Nat) (b : AttemptBehavior) (t : Nat) :
    ∀ ev ∈ (runDesperate ct b t).1,
      ev = SessEv.attemptStart AttemptId.desperate (flagAt ct t) := by
  intro ev h
  simp only [runDesperate] at h
  simpa using h

theorem runDesperate_noFalse (ct : Nat) (b : AttemptBehavior) (t : Nat) :
    noFalse (runDesperate ct b t).1 := by
  intro ev h
  rw [runDesperate_events ct b t ev h]
  rfl

/-- C6 counterexample: a session in which the primary attempt raises a
generic error, all five ordered fallbacks fail quickly, and the user
cancels just before the last resort runs — the final minimal attempt
(`_desperate_fallback`) then starts with the cancellation flag already
cleared, because it is the one attempt with no pre-attempt flag check
(and it registers no progress hook that could observe the flag either). -/
theorem claim_C6_counterexample :
    SessEv.attemptStart AttemptId.desperate false ∈
      runSession 6 ⟨0, some "network error"⟩
        [⟨0, some "e1"⟩, ⟨0, some "e2"⟩, ⟨0, some "e3"⟩, ⟨0, some "e4"⟩, ⟨0, some "e5"⟩]
        ⟨0, none⟩ true := by
  decide

/-- C6 (amended): the cancellation flag is checked before starting the
primary attempt and each ordered fallback attempt and inside every
progress callback of those attempts, so they only ever start with the
flag still set; the final minimal attempt starts without a pre-attempt
check (and registers no progress callback).  Once cancellation is
observed at any check, the in-flight attempt is aborted and nothing
further — in particular no further fallback attempt — happens in that
session. -/
theorem claim_C6_cancellation (ct : Nat) (p : AttemptBehavior)
    (fbs : List AttemptBehavior) (d : AttemptBehavior) (fe : Bool) :
    (∀ ev ∈ runSession ct p fbs d fe, ∀ a fl, ev = SessEv.attemptStart a fl →
      a ≠ AttemptId.desperate → fl = true) ∧
    (∀ pre ev post, runSession ct p fbs d fe = pre ++ ev :: post →
      isFalseObs ev = true → post = []) := by
  constructor
  · intro ev hev a fl heq hne
    rcases hg : runGuardedAttempt ct AttemptId.primary p 0 with ⟨pevs, pt, pout⟩
    have hpe := runGuardedAttempt_events ct AttemptId.primary p 0
    rw [hg] at hpe
    have finP : ev ∈ pevs → fl = true := by
      intro h1
      rcases hpe ev h1 with ⟨bf, h2⟩ | h2 | ⟨b2, h2⟩
      · exact absurd (heq.symm.trans h2) (by simp)
      · have h3 := heq.symm.trans h2
        injection h3 with h4 h5
      · exact absurd (heq.symm.trans h2) (by simp)
    have finF : ∀ t0, ev ∈ (runFallbackList ct 1 t0 fbs).1 → fl = true := by
      intro t0 h1
      rcases runFallbackList_events ct fbs 1 t0 ev h1 with ⟨bf, h2⟩ | ⟨j, h2⟩ | ⟨j, b2, h2⟩
      · exact absurd (heq.symm.trans h2) (by simp)
      · have h3 := heq.symm.trans h2
        injection h3 with h4 h5
      · exact absurd (heq.symm.trans h2) (by simp)
    unfold runSession at hev
    rw [hg] at hev
    cases pout with
    | none =>
        exact finP hev
    | some o =>
        cases o with
        | interrupted => exact finP hev
        | ok =>
            dsimp only at hev
            rcases List.mem_append.mp hev with h1 | h1
            · exact finP h1
            · simp only [List.mem_singleton] at h1
              exact absurd (heq.symm.trans h1) (by simp)
        | raised e =>
            dsimp only at hev
            by_cases hc : (pyContains (pyLower e) "403"
                || pyContains (pyLower e) "forbidden" || !fe) = true
            · rw [if_pos hc] at hev
              exact finP hev
            · rw [if_neg hc] at hev
              rcases hf : runFallbackList ct 1 pt fbs with ⟨fevs, ft, fres⟩
              rw [hf] at hev
              dsimp only at hev
              have finFmem : ev ∈ fevs → fl = true := by
                intro h1
                apply finF pt
                rw [hf]
                exact h1
              cases fres with
              | exhausted =>
                  simp only [runDesperate] at hev
                  rcases hd : d.raises with _ | e2
                  · rw [hd] at hev
                    dsimp only at hev
                    rcases List.mem_append.mp hev with h1 | h1
                    · rcases List.mem_append.mp h1 with h2 | h2
                      · rcases List.mem_append.mp h2 with h3 | h3
                        · exact finP h3
                        · exact finFmem h3
                      · simp only [List.mem_singleton] at h2
                        have h3 := heq.symm.trans h2
                        injection h3 with h4 h5
                        exact absurd h4 hne
                    · simp only [List.mem_singleton] at h1
                      exact absurd (heq.symm.trans h1) (by simp)
                  · rw [hd] at hev
                    dsimp only at hev
                    rcases List.mem_append.mp hev with h1 | h1
                    · rcases List.mem_append.mp h1 with h2 | h2
                      · exact finP h2
                      · exact finFmem h2
                    · simp only [List.mem_singleton] at h1
                      have h3 := heq.symm.trans h1
                      injection h3 with h4 h5
                      exact absurd h4 hne
              | stoppedByFlag =>
                  rcases List.mem_append.mp hev with h1 | h1
                  · exact finP h1
                  · exact finFmem h1
              | succeeded =>
                  rcases List.mem_append.mp hev with h1 | h1
                  · exact finP h1
                  · exact finFmem h1
              | interrupted =>
                  rcases List.mem_append.mp hev with h1 | h1
                  · exact finP h1
                  · exact finFmem h1
  · suffices key : falseObsTerminal (runSession ct p fbs d fe) by exact key
    rcases hg : runGuardedAttempt ct AttemptId.primary p 0 with ⟨pevs, pt, pout⟩
    have hfotP := runGuardedAttempt_fot ct AttemptId.primary p 0
    rw [hg] at hfotP
    unfold runSession
    rw [hg]
    cases pout with
    | none => exact hfotP
    | some o =>
        cases o with
        | interrupted => exact hfotP
        | ok =>
            have hnfP : noFalse pevs := by
              have := runGuardedAttempt_noFalse ct AttemptId.primary p 0
                (Or.inl (by rw [hg]))
              rwa [hg] at this
            dsimp only
            exact fot_append hnfP (fot_singleton _)
        | raised e =>
            have hnfP : noFalse pevs := by
              have := runGuardedAttempt_noFalse ct AttemptId.primary p 0
                (Or.inr ⟨e, by rw [hg]⟩)
              rwa [hg] at this
            dsimp only
            by_cases hc : (pyContains (pyLower e) "403"
                || pyContains (pyLower e) "forbidden" || !fe) = true
            · rw [if_pos hc]
              exact hfotP
            · rw [if_neg hc]
              rcases hf : runFallbackList ct 1 pt fbs with ⟨fevs, ft, fres⟩
              dsimp only
              have hfotF := runFallbackList_fot ct fbs 1 pt
              rw [hf] at hfotF
              cases fres with
              | exhausted =>
                  have hnfF : noFalse fevs := by
                    have := runFallbackList_noFalse ct fbs 1 pt (by rw [hf])
                    rwa [hf] at this
                  have hnfD : noFalse (runDesperate ct d ft).1 :=
                    runDesperate_noFalse ct d ft
                  simp only [runDesperate] at hnfD ⊢
                  rcases hd : d.raises with _ | e2
                  · dsimp only
                    exact fot_append (noFalse_append (noFalse_append hnfP hnfF) hnfD)
                      (fot_singleton _)
                  · dsimp only
                    exact fot_of_noFalse (noFalse_append (noFalse_append hnfP hnfF) hnfD)
              | stoppedByFlag => exact fot_append hnfP hfotF
              | succeeded => exact fot_append hnfP hfotF
              | interrupted => exact fot_append hnfP hfotF

theorem claim_C6_witness :
    (true : Bool) = true ∧ ([] : List SessEv) = [] := by
  constructor
  · exact (claim_C6_cancellation 1 ⟨2, none⟩ [] ⟨0, none⟩ true).1
      (SessEv.attemptStart AttemptId.primary true) (by decide)
      AttemptId.primary true rfl (by decide)
  · exact (claim_C6_cancellation 1 ⟨2, none⟩ [] ⟨0, none⟩ true).2
      [SessEv.checkFlag true, SessEv.attemptStart AttemptId.primary true]
      (SessEv.callbackSeen AttemptId.primary false) [] (by decide) rfl

/-! ## 403 / Forbidden short-circuit (`_download_thread` lines 1798-1831) -/

theorem isPrefixList_map_toLower (p : List Char) :
    ∀ s, isPrefixList p s = true →
      isPrefixList (p.map Char.toLower) (s.map Char.toLower) = true := by
  induction p with
  | nil => intro s _; rfl
  | cons c cs ih =>
      intro s h
      cases s with
      | nil => cases h
      | cons x xs =>
          simp only [isPrefixList, Bool.and_eq_true, beq_iff_eq] at h
          simp only [List.map_cons, isPrefixList, Bool.and_eq_true, beq_iff_eq]
          exact ⟨by rw [h.1], ih xs h.2⟩

theorem isSubList_map_toLower (n : List Char) :
    ∀ h, isSubList n h = true →
      isSubList (n.map Char.toLower) (h.map Char.toLower) = true := by
  intro h
  induction h with
  | nil =>
      intro hs
      simp only [isSubList, List.isEmpty_iff] at hs
      simp [isSubList, hs]
  | cons c t ih =>
      intro hs
      simp only [isSubList, Bool.or_eq_true] at hs
      rcases hs with h1 | h1
      · simp only [List.map_cons, isSubList, Bool.or_eq_true]
        exact Or.inl (by simpa using isPrefixList_map_toLower n (c :: t) h1)
      · simp only [List.map_cons, isSubList, Bool.or_eq_true]
        exact Or.inr (ih h1)

theorem pyContains_lower_403 (e : String) (h : pyContains e "403" = true) :
    pyContains (pyLower e) "403" = true := by
  have h2 := isSubList_map_toLower "403".toList e.toList h
  rw [show ("403".toList.map Char.toLower) = "403".toList from by decide] at h2
  exact h2

theorem pyContains_lower_forbidden (e : String) (h : pyContains e "Forbidden" = true) :
    pyContains (pyLower e) "forbidden" = true := by
  have h2 := isSubList_map_toLower "Forbidden".toList e.toList h
  rw [show ("Forbidden".toList.map Char.toLower) = "forbidden".toList from by decide] at h2
  exact h2

inductive PrimaryErrorHandling
  | reported (msg : String)
  | fallbacksTried
deriving DecidableEq

/-- The exception handler of `_download_thread`: fallbacks run only
when the lower-cased error text contains neither `403` nor `forbidden`
and nothing has been downloaded; otherwise `_download_error` reports
the error as the terminal outcome. -/
def handle_primary_error (e : String) (downloaded_files : List String) :
    PrimaryErrorHandling :=
  if !pyContains (pyLower e) "403" && !pyContains (pyLower e) "forbidden"
      && downloaded_files.isEmpty then
    PrimaryErrorHandling.fallbacksTried
  else PrimaryErrorHandling.reported e

theorem runGuardedAttempt_ok_imp (ct : Nat) (a : AttemptId) (b : AttemptBehavior) (t : Nat)
    (h : (runGuardedAttempt ct a b t).2.2 = some AttemptOutcome.ok) : b.raises = none := by
  by_cases hf : flagAt ct t
  · by_cases hi : (runCallbacks ct a b.callbacks (t + 1)).2.2 = true
    · simp [runGuardedAttempt, hf, hi] at h
    · rcases hr : b.raises with _ | e2
      · rfl
      · simp [runGuardedAttempt, hf, hi, hr] at h
  · simp [runGuardedAttempt, hf] at h

theorem runGuardedAttempt_raised_imp (ct : Nat) (a : AttemptId) (b : AttemptBehavior)
    (t : Nat) (e : String)
    (h : (runGuardedAttempt ct a b t).2.2 = some (AttemptOutcome.raised e)) :
    b.raises = some e := by
  by_cases hf : flagAt ct t
  · by_cases hi : (runCallbacks ct a b.callbacks (t + 1)).2.2 = true
    · simp [runGuardedAttempt, hf, hi] at h
    · rcases hr : b.raises with _ | e2
      · simp [runGuardedAttempt, hf, hi, hr] at h
      · simp only [runGuardedAttempt, if_pos hf, hr] at h
        simp [hi] at h
        rw [h]
  · simp [runGuardedAttempt, hf] at h

/-- C1: if the primary attempt raises an error whose text contains
`403` or `Forbidden`, the controller reports the restriction
immediately as the terminal outcome (`handle_primary_error` reports
rather than trying fallbacks), and in every execution of the session no
fallback attempt and no final minimal attempt is ever started. -/
theorem claim_C1_restriction_terminal (e : String) (files : List String)
    (ct cbs : Nat) (fbs : List AttemptBehavior) (desp : AttemptBehavior)
    (h : pyContains e "403" = true ∨ pyContains e "Forbidden" = true) :
    handle_primary_error e files = PrimaryErrorHandling.reported e ∧
      ∀ ev ∈ runSession ct ⟨cbs, some e⟩ fbs desp files.isEmpty,
        (∀ i fl, ev ≠ SessEv.attemptStart (AttemptId.fallback i) fl) ∧
        ∀ fl, ev ≠ SessEv.attemptStart AttemptId.desperate fl := by
  have hlow : pyContains (pyLower e) "403" = true ∨
      pyContains (pyLower e) "forbidden" = true := by
    rcases h with h | h
    · exact Or.inl (pyContains_lower_403 e h)
    · exact Or.inr (pyContains_lower_forbidden e h)
  have hcond : (pyContains (pyLower e) "403" || pyContains (pyLower e) "forbidden"
      || !files.isEmpty) = true := by
    rcases hlow with h1 | h1 <;> simp [h1]
  constructor
  · unfold handle_primary_error
    rw [if_neg]
    intro hcon
    rcases hlow with h1 | h1 <;> simp [h1] at hcon
  · intro ev hev
    rcases hg : runGuardedAttempt ct AttemptId.primary ⟨cbs, some e⟩ 0 with ⟨pevs, pt, pout⟩
    have hpe := runGuardedAttempt_events ct AttemptId.primary ⟨cbs, some e⟩ 0
    rw [hg] at hpe
    have finP : ev ∈ pevs →
        (∀ i fl, ev ≠ SessEv.attemptStart (AttemptId.fallback i) fl) ∧
        ∀ fl, ev ≠ SessEv.attemptStart AttemptId.desperate fl := by
      intro h1
      rcases hpe ev h1 with ⟨bf, h2⟩ | h2 | ⟨b2, h2⟩ <;> subst h2 <;>
        exact ⟨fun i fl => by simp, fun fl => by simp⟩
    unfold runSession at hev
    rw [hg] at hev
    cases pout with
    | none => exact finP hev
    | some o =>
        cases o with
        | interrupted => exact finP hev
        | ok =>
            exfalso
            have := runGuardedAttempt_ok_imp ct AttemptId.primary ⟨cbs, some e⟩ 0
              (by rw [hg])
            cases this
        | raised e2 =>
            have he2 : e2 = e := by
              have := runGuardedAttempt_raised_imp ct AttemptId.primary ⟨cbs, some e⟩ 0 e2
                (by rw [hg])
              injection this with h3
              exact h3.symm
            subst he2
            dsimp only at hev
            rw [if_pos hcond] at hev
            exact finP hev

theorem claim_C1_witness :
    handle_primary_error "HTTP Error 403: Forbidden" [] =
        PrimaryErrorHandling.reported "HTTP Error 403: Forbidden" ∧
      ∀ i fl, SessEv.attemptStart AttemptId.primary true
        ≠ SessEv.attemptStart (AttemptId.fallback i) fl := by
  have h := claim_C1_restriction_terminal "HTTP Error 403: Forbidden" [] 10 0
    [⟨0, some "x"⟩] ⟨0, none⟩ (Or.inl (by decide))
  refine ⟨h.1, ?_⟩
  exact (h.2 (SessEv.attemptStart AttemptId.primary true) (by decide)).1
